import Mathlib

/-!
Verification of backlight-dbus (backlight-dbus.c) against its specification.

We give a shallow embedding of the two computational cores of the program:

* `calculate_target_brightness` (backlight-dbus.c lines 126-164), split along
  its two phases into `parse_brightness` (lines 129-149, the expression
  parser built on `strtol`) and `resolve_target` (lines 150-163, percent
  rescaling, sign application and the range check);
* the fade loop of `main` (lines 426-467), embedded as `fadeLoop` (the
  `while` loop, lines 427-449), `finishFade` (the post-loop restoration /
  final-correction code, lines 451-467) and `runFade`.

Modelling conventions:

* C strings are `List Char`; the argv strings of interest contain no NUL.
* C `int` / `int64_t` arithmetic is exact `Int` arithmetic.  This is faithful
  for the quantities that occur: brightness values and elapsed milliseconds
  are bounded by `2^31`, so the only product formed, the `int64_t` product
  `millis_elapsed * orig_brightness` of line 440, is below `2^62` and never
  overflows, and every quotient lies between `0` and `orig_brightness`.
* C integer division truncates toward zero, which is `Int.tdiv`.
* Time is integer milliseconds.  The monotonic-clock samples taken by the
  loop (line 429) are supplied by the environment as a list of `Tick`s, one
  per executed `nanosleep`; `Tick.elapsed` is the value
  `timespec_diff_in_millis(&current_time, &start_time)` observed after that
  sleep.  The loop-head comparison `timespec_cmp(&current_time, &target_time)
  < 0` (line 427) compares the same instants at nanosecond precision; at
  millisecond granularity it is `lastElapsed < total_millis`, which is how we
  model it (initially `current_time = start_time`, line 426, so
  `lastElapsed = 0`).
* The signal flag `received_signal` is set by the handler (line 38) and never
  cleared.  A signal can become visible to the loop (a) by interrupting
  `nanosleep`, making it return `-1` (modelled by `Tick.sigInSleep`; the code
  then breaks out of the loop, lines 430-435), or (b) at any other point, in
  which case the loop observes it at the next read of `received_signal`
  (modelled by `Tick.sigAfter`, a signal arriving after this wake-up and
  before the next read; signals arriving during a commit are blocked by
  `set_brightness`, lines 249-261, and delivered right after it returns, so
  they also fall in this class).  The initial flag value `sig0` covers
  signals arriving before the loop is entered.
* The D-Bus sink `set_brightness` is abstracted as `sink : Nat → Bool`
  giving the success of the k-th commit call; `false` models a negative
  return from `sd_bus_call_method` (an RpcError), upon which the code jumps
  to `method_failed` (lines 444-445, 456-457, 464-465) and the process exits
  with `EXIT_FAILURE` (line 487).
* `fscanf`/`sd_bus` I/O, device discovery and session resolution are outside
  the claims and are not modelled.
-/

namespace BacklightDbus

/-! ## Value parser and brightness calculator (lines 126-164) -/

/-- C `isspace` in the default locale: space, \t, \n, \v, \f, \r. -/
def isSpaceChar (c : Char) : Bool :=
  c = ' ' || c = '\t' || c = '\n' || c = '\x0b' || c = '\x0c' || c = '\r'

/-- Decimal digit test, as used by `strtol` with base 10. -/
def isDigitChar (c : Char) : Bool :=
  '0' ≤ c && c ≤ '9'

/-- Numeric value of a run of decimal digits (most significant first). -/
def digitsVal (l : List Char) : Int :=
  l.foldl (fun a c => 10 * a + ((c.toNat : Int) - 48)) 0

/-- Model of C `strtol(s, &endptr, 10)`: skip leading whitespace, accept an
optional sign, then a run of decimal digits.  Returns the parsed value and
`endptr - s` (the number of characters consumed); if no digits are found the
value is `0` and `endptr = s`, i.e. zero characters are consumed.  The
`long` saturation of `strtol` is not modelled; the magnitudes in the claims
are far below `LONG_MAX`. -/
def strtol10 (s : List Char) : Int × Nat :=
  let ws := s.takeWhile isSpaceChar
  let rest := s.dropWhile isSpaceChar
  let hasSign : Bool := rest.head? = some '-' || rest.head? = some '+'
  let neg : Bool := rest.head? = some '-'
  let rest2 := if hasSign then rest.tail else rest
  let d := rest2.takeWhile isDigitChar
  if d.isEmpty then (0, 0)
  else (if neg then -(digitsVal d) else digitsVal d,
        ws.length + (if hasSign then 1 else 0) + d.length)

/-- Error kinds of `calculate_target_brightness`: the two distinct
`LOG_ERROR` + `return -1` sites, "Invalid format for brightness" (line 147)
and "Brightness is out of range" (line 159). -/
inductive CalcError
  | parseError
  | outOfRange
deriving DecidableEq, Repr

/-- lines 129-149: strip an optional leading `+`/`-` (the C variable
`prefix`, modelled as `sgn`), detect an optional trailing `%` via
`brightness_str[len-1]`, run `strtol` on the remainder and reject when the
digit run is empty (`len == 0`), when `strtol` did not consume exactly the
non-`%` characters (`endptr - brightness_str != len`), or when the first
character after the sign is whitespace (`isspace(brightness_str[0])`).
Returns `(sgn, has_percent, value)` on success.

Boundary notes, matching the C exactly: reading `s[0]` of an empty string
yields the NUL terminator, modelled by `headD (Char.ofNat 0)` (NUL is
neither a sign nor whitespace); after stripping a sign the `%` test on an
empty remainder reads the sign character itself (`s[-1]`), which is never
`'%'`, so we model it as "no percent"; for the empty input string that read
is out of bounds in C, but every outcome of it leads to the same "Invalid
format" rejection that we produce. -/
def parse_brightness (s : List Char) :
    Except CalcError (Option Char × Bool × Int) :=
  let c0 := s.headD (Char.ofNat 0)
  let sgn : Option Char := if c0 = '-' || c0 = '+' then some c0 else none
  let s1 := if c0 = '-' || c0 = '+' then s.tail else s
  let pct : Bool := s1.getLast? = some '%'
  let s2 := if pct then s1.dropLast else s1
  let p := strtol10 s1
  let headSpace : Bool := isSpaceChar (s1.headD (Char.ofNat 0))
  if s2.length = 0 || p.2 ≠ s2.length || headSpace then .error .parseError
  else .ok (sgn, pct, p.1)

/-- lines 150-163: percent rescaling `brightness = max_brightness *
brightness / 100` (C division, truncation toward zero), application of the
sign to `cur_brightness`, and the range check.  The C code checks only
`brightness > max_brightness` (line 158); there is no lower-bound check. -/
def resolve_target (sgn : Option Char) (has_percent : Bool)
    (brightness cur_brightness max_brightness : Int) : Except CalcError Int :=
  let b1 := if has_percent then Int.tdiv (max_brightness * brightness) 100
            else brightness
  let b2 :=
    if sgn = some '-' then cur_brightness - b1
    else if sgn = some '+' then cur_brightness + b1
    else b1
  if b2 > max_brightness then .error .outOfRange else .ok b2

/-- lines 126-164: the whole of `calculate_target_brightness`. -/
def calculate_target_brightness (brightness_str : List Char)
    (cur_brightness max_brightness : Int) : Except CalcError Int :=
  match parse_brightness brightness_str with
  | .error e => .error e
  | .ok (sgn, pct, v) => resolve_target sgn pct v cur_brightness max_brightness

/-! ## Fade scheduler (lines 426-467) -/

/-- lines 438-440: the intermediate value computed by the fade loop,
`next_brightness = orig_brightness - ((int64_t)millis_elapsed *
orig_brightness) / total_millis`.  Note that `target_brightness` does not
occur in this expression. -/
def next_brightness (orig_brightness total_millis millis_elapsed : Int) : Int :=
  orig_brightness - Int.tdiv (millis_elapsed * orig_brightness) total_millis

/-- Environment record for one executed `nanosleep` of the loop: whether a
signal interrupted the sleep, the elapsed milliseconds read right after it,
and whether a signal arrived between this wake-up and the next read of
`received_signal`. -/
structure Tick where
  sigInSleep : Bool
  elapsed : Int
  sigAfter : Bool
deriving DecidableEq, Repr

/-- How the `while` loop was left: normally (via its condition or a
`break`), via `goto method_failed` on a failed commit, or not at all because
the modelled environment supplied too few clock samples. -/
inductive ExitKind
  | normal
  | rpcFail
  | noFuel
deriving DecidableEq, Repr

/-- State at loop exit: the values passed to `set_brightness` in order, the
final `cur_brightness`, the number of successful commits, the value of
`received_signal`, and how the loop exited. -/
structure LoopOut where
  commits : List Int
  cur : Int
  ncommits : Nat
  flag : Bool
  ekind : ExitKind
deriving DecidableEq, Repr

/-- lines 427-449: the fade loop.  Parameters: the schedule constants, the
sink behaviour, then the remaining clock samples, the current value of
`received_signal`, `cur_brightness`, the elapsed-ms reading of the last
`clock_gettime` (0 at entry, line 426), and the number of successful
commits so far. -/
def fadeLoop (orig_brightness total_millis : Int) (sink : Nat → Bool) :
    List Tick → Bool → Int → Int → Nat → LoopOut
  | ticks, flag, cur, lastElapsed, k =>
    if flag then ⟨[], cur, k, true, .normal⟩
    else if total_millis ≤ lastElapsed then ⟨[], cur, k, false, .normal⟩
    else
      match ticks with
      | [] => ⟨[], cur, k, false, .noFuel⟩
      | t :: rest =>
        if t.sigInSleep then ⟨[], cur, k, true, .normal⟩
        else if total_millis ≤ t.elapsed then ⟨[], cur, k, t.sigAfter, .normal⟩
        else if next_brightness orig_brightness total_millis t.elapsed ≠ cur then
          if sink k then
            let r := fadeLoop orig_brightness total_millis sink rest t.sigAfter
              (next_brightness orig_brightness total_millis t.elapsed) t.elapsed (k + 1)
            ⟨next_brightness orig_brightness total_millis t.elapsed :: r.commits,
              r.cur, r.ncommits, r.flag, r.ekind⟩
          else ⟨[next_brightness orig_brightness total_millis t.elapsed], cur, k,
            t.sigAfter, .rpcFail⟩
        else fadeLoop orig_brightness total_millis sink rest t.sigAfter cur t.elapsed k

/-- Terminal state of the whole run. -/
inductive Outcome
  | completed
  | cancelled
  | rpcFailed
  | outOfFuel
deriving DecidableEq, Repr

/-- Observable result of a run: all values passed to `set_brightness` in
order, the final `cur_brightness`, and the terminal state. -/
structure RunOut where
  commits : List Int
  cur : Int
  outcome : Outcome
deriving DecidableEq, Repr

/-- lines 451-467: after the loop, if `received_signal` then restore
`orig_brightness` when the last applied value differs from it; otherwise
commit `target_brightness` when the last applied value differs from it. -/
def finishFade (orig_brightness target_brightness : Int) (sink : Nat → Bool)
    (lo : LoopOut) : RunOut :=
  match lo.ekind with
  | .rpcFail => ⟨lo.commits, lo.cur, .rpcFailed⟩
  | .noFuel => ⟨lo.commits, lo.cur, .outOfFuel⟩
  | .normal =>
    if lo.flag then
      if lo.cur ≠ orig_brightness then
        if sink lo.ncommits then ⟨lo.commits ++ [orig_brightness], orig_brightness, .cancelled⟩
        else ⟨lo.commits ++ [orig_brightness], lo.cur, .rpcFailed⟩
      else ⟨lo.commits, lo.cur, .cancelled⟩
    else
      if lo.cur ≠ target_brightness then
        if sink lo.ncommits then ⟨lo.commits ++ [target_brightness], target_brightness, .completed⟩
        else ⟨lo.commits ++ [target_brightness], lo.cur, .rpcFailed⟩
      else ⟨lo.commits, lo.cur, .completed⟩

/-- lines 426-467: a whole fade run.  At entry `cur_brightness =
orig_brightness` (line 349) and `current_time = start_time` (line 426). -/
def runFade (orig_brightness target_brightness total_millis : Int)
    (sink : Nat → Bool) (sig0 : Bool) (ticks : List Tick) : RunOut :=
  finishFade orig_brightness target_brightness sink
    (fadeLoop orig_brightness total_millis sink ticks sig0 orig_brightness 0 0)

/-- line 487: `return status < 0 ? EXIT_FAILURE : EXIT_SUCCESS`.  A failed
commit leaves `status < 0`; normal completion and a successful (possibly
restoring) final commit leave `status ≥ 0`.  `outOfFuel` is a model
artefact and is mapped to success. -/
def exit_status (o : Outcome) : Nat :=
  if o = Outcome.rpcFailed then 1 else 0

/-! ## Spec-side definitions, for comparison with the code

These two definitions follow the specification's words, not the source;
they exist only to state refutations and refinements against the code-level
definitions above. -/

/-- Formula from the spec (section 4.3, step 4): `next = origin -
elapsed_ms * (origin - target) / duration_ms`. -/
def spec_next (origin target duration_ms elapsed_ms : Int) : Int :=
  origin - Int.tdiv (elapsed_ms * (origin - target)) duration_ms

/-- Strip one leading `+`/`-` sign, if present. -/
def stripSign1 : List Char → List Char
  | [] => []
  | c :: r => if c = '-' || c = '+' then r else c :: r

/-- Strip one trailing `%`, if present. -/
def stripPct (l : List Char) : List Char :=
  if l.getLast? = some '%' then l.dropLast else l

/-- Grammar from the spec (section 4.1): optional leading `+` or `-`, a
non-empty digit run, optional trailing `%`, nothing else. -/
def grammarSpec (s : List Char) : Bool :=
  let t := stripPct (stripSign1 s)
  !t.isEmpty && t.all isDigitChar

/-- Grammar actually accepted by the code: optional leading `+` or `-`, then
an optional second sign (consumed by `strtol` itself), a non-empty digit
run, optional trailing `%`, nothing else. -/
def grammarCode (s : List Char) : Bool :=
  let t := stripPct (stripSign1 (stripSign1 s))
  !t.isEmpty && t.all isDigitChar

/-! ## Claim C1 -/

/-- C1: the claim states that each intermediate brightness equals
`origin - elapsed_ms * (origin - target) / duration_ms`.  The code (lines
438-440) instead computes `orig_brightness - elapsed * orig_brightness /
total_millis`, ignoring the target entirely: at origin 100, target 50,
duration 1000 ms, elapsed 500 ms the code produces 50 while the claimed
formula gives 75. -/
theorem c1_fade_step_ignores_target :
    next_brightness 100 1000 500 = 50 ∧ spec_next 100 50 1000 500 = 75 ∧
      next_brightness 100 1000 500 ≠ spec_next 100 50 1000 500 :=
  ⟨by decide, by decide, by decide⟩

/-! ## Claim C2 -/

/-- C2: with origin 100, target 80, duration 1000 ms, wake-ups at 500 ms and
1000 ms, no signal and a sink that always succeeds, the run completes but
commits [50, 80]: the sequence dips below the target and then rises again,
so it is not non-increasing even though target < origin (the final value
does equal the target, via the post-loop correction). -/
theorem c2_not_monotonic_toward_target :
    runFade 100 80 1000 (fun _ => true) false
        [⟨false, 500, false⟩, ⟨false, 1000, false⟩] =
      ⟨[50, 80], 80, .completed⟩ ∧
    ¬ List.Chain' (fun a b : Int => b ≤ a) [50, 80] := by
  refine ⟨by decide, ?_⟩
  simp [List.chain'_cons]

/-! ## Claim C4 -/

/-- C4: the range check of `calculate_target_brightness` (line 158) tests
only `brightness > max_brightness`; there is no lower-bound test, so for
current 50, max 100 and input "-60" the function succeeds with the negative
target -10 instead of failing with the out-of-range error. -/
theorem c4_negative_target_accepted :
    calculate_target_brightness ['-', '6', '0'] 50 100 = .ok (-10) ∧
      ¬ (0 ≤ (-10 : Int)) :=
  ⟨rfl, by decide⟩

/-! ## Claim C5 -/

/-- C5: with origin = target = 50, duration 1000 ms, wake-ups at 500 ms and
1000 ms, no signal and an always-successful sink, the code commits [25, 50]
rather than nothing: because the step formula (line 440) ignores the
target, an origin-equals-target fade still walks toward zero and is then
corrected back to the target. -/
theorem c5_equal_fade_still_commits :
    (runFade 50 50 1000 (fun _ => true) false
        [⟨false, 500, false⟩, ⟨false, 1000, false⟩]).commits = [25, 50] ∧
      (runFade 50 50 1000 (fun _ => true) false
        [⟨false, 500, false⟩, ⟨false, 1000, false⟩]).commits ≠ [] :=
  ⟨by decide, by decide⟩

/-! ## Claim C6 -/

/-- C6, counterexample: a fade with duration 0 whose origin already equals
its target (here both 50) commits nothing at all — the loop is skipped and
the final correction (lines 460-467) is guarded by `cur_brightness !=
target_brightness` — so "exactly one commit, equal to target" fails. -/
theorem c6_zero_duration_equal_target_no_commit :
    (runFade 50 50 0 (fun _ => true) false []).commits = [] ∧
      (runFade 50 50 0 (fun _ => true) false []).commits ≠ [50] :=
  ⟨by decide, by decide⟩

/-- C6, amended: a fade with duration 0 whose origin differs from its
target, with no cancellation signal and a successful sink, commits exactly
one value, the target, immediately: the loop condition
`timespec_cmp(&current_time, &target_time) < 0` (line 427) is already false
at entry, so no sleep and no intermediate commit happens for any
environment, and the single commit comes from lines 460-467. -/
theorem c6_zero_duration_single_commit (orig_brightness target_brightness : Int)
    (sink : Nat → Bool) (ticks : List Tick)
    (hne : orig_brightness ≠ target_brightness) (hs : sink 0 = true) :
    runFade orig_brightness target_brightness 0 sink false ticks =
      ⟨[target_brightness], target_brightness, .completed⟩ := by
  unfold runFade
  rw [fadeLoop.eq_def]
  simp only [if_false, le_refl, if_true, Bool.false_eq_true, ite_true, ite_false]
  unfold finishFade
  simp [hne, hs]

/-- Witness for the amended C6 at origin 50, target 80, duration 0. -/
theorem c6_zero_duration_single_commit_witness :
    runFade 50 80 0 (fun _ => true) false [] = ⟨[80], 80, .completed⟩ :=
  c6_zero_duration_single_commit 50 80 (fun _ => true) [] (by decide) rfl

/-! ## Claim C9 (counterexample) -/

/-- C9, counterexample: the input "+-5" has a sign in a position other than
the single optional leading one, so per the claim it must be rejected; the
code accepts it — the leading `+` is stripped as the prefix and `strtol`
itself consumes the second sign — yielding the parse (sign `+`, no percent,
value -5). -/
theorem c9_double_sign_accepted :
    parse_brightness ['+', '-', '5'] = .ok (some '+', false, -5) ∧
      grammarSpec ['+', '-', '5'] = false :=
  ⟨rfl, by decide⟩

/-! ## Claim C3 -/

/-- C3: whenever the loop exits normally with the signal flag observed set
(cancellation), the run appends exactly one commit of `orig_brightness` if
the last applied value differs from it and no commit otherwise (lines
451-459), the final last-applied value is `orig_brightness`, the terminal
state is `cancelled`, and nothing further is committed — assuming the
restoration commit itself succeeds. -/
theorem c3_cancellation_restores_origin
    (orig_brightness target_brightness total_millis : Int) (sink : Nat → Bool)
    (sig0 : Bool) (ticks : List Tick)
    (hek : (fadeLoop orig_brightness total_millis sink ticks sig0 orig_brightness 0 0).ekind
      = .normal)
    (hfl : (fadeLoop orig_brightness total_millis sink ticks sig0 orig_brightness 0 0).flag
      = true)
    (hsk : sink (fadeLoop orig_brightness total_millis sink ticks sig0 orig_brightness 0 0).ncommits
      = true) :
    runFade orig_brightness target_brightness total_millis sink sig0 ticks =
      ⟨(fadeLoop orig_brightness total_millis sink ticks sig0 orig_brightness 0 0).commits ++
          (if (fadeLoop orig_brightness total_millis sink ticks sig0 orig_brightness 0 0).cur
              ≠ orig_brightness then [orig_brightness] else []),
        orig_brightness, .cancelled⟩ := by
  unfold runFade finishFade
  rw [hek, hfl]
  by_cases hc :
      (fadeLoop orig_brightness total_millis sink ticks sig0 orig_brightness 0 0).cur
        = orig_brightness
  · simp [hc]
  · simp [hc, hsk]

/-- Witness for C3: origin 100, target 0, duration 1000 ms, one wake-up at
100 ms that commits 90 and is followed by a signal; the run then commits
100 once more and ends cancelled at the original value. -/
theorem c3_cancellation_restores_origin_witness :
    runFade 100 0 1000 (fun _ => true) false [⟨false, 100, true⟩] =
      ⟨[90, 100], 100, .cancelled⟩ :=
  (c3_cancellation_restores_origin 100 0 1000 (fun _ => true) false
    [⟨false, 100, true⟩] (by decide) (by decide) (by decide)).trans (by decide)

/-! ## Claim C7 -/

/-- C7: if a sink commit fails inside the fade loop (the loop exits via
`goto method_failed`, lines 444-445), then the run ends right there: the
overall commit sequence is exactly the loop's (the failed attempt last), no
restoration of `orig_brightness` and no further intermediate commit is
attempted, the last applied value is unchanged, and the process exit status
is failure. -/
theorem c7_rpc_failure_aborts
    (orig_brightness target_brightness total_millis : Int) (sink : Nat → Bool)
    (sig0 : Bool) (ticks : List Tick)
    (hek : (fadeLoop orig_brightness total_millis sink ticks sig0 orig_brightness 0 0).ekind
      = .rpcFail) :
    runFade orig_brightness target_brightness total_millis sink sig0 ticks =
      ⟨(fadeLoop orig_brightness total_millis sink ticks sig0 orig_brightness 0 0).commits,
        (fadeLoop orig_brightness total_millis sink ticks sig0 orig_brightness 0 0).cur,
        .rpcFailed⟩ ∧
    exit_status (runFade orig_brightness target_brightness total_millis sink sig0 ticks).outcome
      = 1 := by
  unfold runFade finishFade
  rw [hek]
  exact ⟨rfl, rfl⟩

/-- Witness for C7: origin 100, target 0, duration 1000 ms, a sink that
always fails; the first intermediate commit of 90 fails, the run ends with
only that attempted commit, the last applied value still 100, and failure
status. -/
theorem c7_rpc_failure_aborts_witness :
    runFade 100 0 1000 (fun _ => false) false [⟨false, 100, false⟩] =
        ⟨[90], 100, .rpcFailed⟩ ∧
      exit_status (runFade 100 0 1000 (fun _ => false) false
        [⟨false, 100, false⟩]).outcome = 1 := by
  have h := c7_rpc_failure_aborts 100 0 1000 (fun _ => false) false
    [⟨false, 100, false⟩] (by decide)
  exact ⟨h.1.trans (by decide), h.2⟩

/-! ## Claim C10 -/

/-- Helper: the optional last element of a nonempty list as `getLastD` of
its tail with the head as default. -/
theorem getLast?_cons_eq_getLastD (a : Int) (l : List Int) :
    (a :: l).getLast? = some (l.getLastD a) := by
  induction l generalizing a with
  | nil => rfl
  | cons b r ih => rw [List.getLast?_cons_cons, ih b, List.getLastD_cons]

/-- Loop invariant for the fade loop under an always-successful sink: at
exit, `cur_brightness` is the last committed value (or the entry value if
nothing was committed), and no two consecutive entries of
`cur_brightness :: commits` are equal, because every commit is guarded by
`next_brightness != cur_brightness` (line 441). -/
theorem fadeLoop_last_applied (orig_brightness total_millis : Int)
    (sink : Nat → Bool) (hs : ∀ k, sink k = true) :
    ∀ (ticks : List Tick) (flag : Bool) (cur lastElapsed : Int) (k : Nat),
      (fadeLoop orig_brightness total_millis sink ticks flag cur lastElapsed k).cur =
        (fadeLoop orig_brightness total_millis sink ticks flag cur lastElapsed k).commits.getLastD cur ∧
      List.Chain' (· ≠ ·)
        (cur :: (fadeLoop orig_brightness total_millis sink ticks flag cur lastElapsed k).commits) := by
  intro ticks
  induction ticks with
  | nil =>
    intro flag cur lastElapsed k
    rw [fadeLoop.eq_def]
    dsimp only
    split_ifs <;> simp
  | cons t rest ih =>
    intro flag cur lastElapsed k
    rw [fadeLoop.eq_def]
    dsimp only
    by_cases hf : flag = true
    · rw [if_pos hf]
      simp
    · rw [if_neg hf]
      by_cases hle : total_millis ≤ lastElapsed
      · rw [if_pos hle]
        simp
      · rw [if_neg hle]
        by_cases hss : t.sigInSleep = true
        · rw [if_pos hss]
          simp
        · rw [if_neg hss]
          by_cases hte : total_millis ≤ t.elapsed
          · rw [if_pos hte]
            simp
          · rw [if_neg hte]
            by_cases hne : next_brightness orig_brightness total_millis t.elapsed ≠ cur
            · rw [if_pos hne, if_pos (hs k)]
              have h := ih t.sigAfter
                (next_brightness orig_brightness total_millis t.elapsed) t.elapsed (k + 1)
              refine ⟨?_, ?_⟩
              · rw [List.getLastD_cons]
                exact h.1
              · exact List.chain'_cons.mpr ⟨Ne.symm hne, h.2⟩
            · rw [if_neg hne]
              exact ih t.sigAfter cur t.elapsed k

/-- C10: under an always-successful sink, at the end of any run the
scheduler's last-applied value (`cur_brightness`) equals the most recently
committed value, or the original brightness if nothing was committed; and
because every commit decision (line 441's `next_brightness !=
cur_brightness`, line 453's `cur_brightness != orig_brightness`, line 460's
`cur_brightness != target_brightness`) compares against that value, no two
consecutive committed values are equal, nor does the first commit repeat
the original brightness. -/
theorem c10_last_applied_tracks_commits
    (orig_brightness target_brightness total_millis : Int) (sink : Nat → Bool)
    (sig0 : Bool) (ticks : List Tick) (hs : ∀ k, sink k = true) :
    (runFade orig_brightness target_brightness total_millis sink sig0 ticks).cur =
      (runFade orig_brightness target_brightness total_millis sink sig0 ticks).commits.getLastD
        orig_brightness ∧
    List.Chain' (· ≠ ·)
      (orig_brightness ::
        (runFade orig_brightness target_brightness total_millis sink sig0 ticks).commits) := by
  have h := fadeLoop_last_applied orig_brightness total_millis sink hs ticks sig0
    orig_brightness 0 0
  unfold runFade finishFade
  set lo := fadeLoop orig_brightness total_millis sink ticks sig0 orig_brightness 0 0 with hlo
  rcases hek : lo.ekind with _ | _ | _
  · -- normal exit
    by_cases hf : lo.flag
    · by_cases hc : lo.cur = orig_brightness
      · simp only [hf, if_true, hc, ne_eq, not_true_eq_false, if_false]
        exact ⟨hc ▸ h.1, h.2⟩
      · simp only [hf, if_true, hc, ne_eq, not_false_eq_true, hs lo.ncommits]
        refine ⟨(List.getLastD_concat _ _ _).symm, ?_⟩
        rw [← List.cons_append]
        refine List.chain'_append.mpr ⟨h.2, List.chain'_singleton _, ?_⟩
        intro x hx y hy
        rw [getLast?_cons_eq_getLastD] at hx
        rw [List.head?_cons] at hy
        cases hx
        cases hy
        rw [← h.1]
        exact hc
    · by_cases hc : lo.cur = target_brightness
      · simp only [hf, Bool.false_eq_true, if_false, hc, ne_eq, not_true_eq_false]
        exact ⟨hc ▸ h.1, h.2⟩
      · simp only [hf, Bool.false_eq_true, if_false, hc, ne_eq, not_false_eq_true,
          if_true, hs lo.ncommits]
        refine ⟨(List.getLastD_concat _ _ _).symm, ?_⟩
        rw [← List.cons_append]
        refine List.chain'_append.mpr ⟨h.2, List.chain'_singleton _, ?_⟩
        intro x hx y hy
        rw [getLast?_cons_eq_getLastD] at hx
        rw [List.head?_cons] at hy
        cases hx
        cases hy
        rw [← h.1]
        exact hc
  · exact h
  · exact h

/-- Witness for C10: origin 100, target 0, duration 1000 ms, wake-ups at
250 ms and 500 ms with an always-successful sink. -/
theorem c10_last_applied_tracks_commits_witness :
    (runFade 100 0 1000 (fun _ => true) false
        [⟨false, 250, false⟩, ⟨false, 500, false⟩]).cur =
      (runFade 100 0 1000 (fun _ => true) false
        [⟨false, 250, false⟩, ⟨false, 500, false⟩]).commits.getLastD 100 ∧
    List.Chain' (· ≠ ·)
      (100 :: (runFade 100 0 1000 (fun _ => true) false
        [⟨false, 250, false⟩, ⟨false, 500, false⟩]).commits) :=
  c10_last_applied_tracks_commits 100 0 1000 (fun _ => true) false
    [⟨false, 250, false⟩, ⟨false, 500, false⟩] (fun _ => rfl)

/-! ## Claim C8 -/

/-- C8: for a percent magnitude `p` in [0, 100] and a nonnegative maximum,
the calculator (lines 150-157) rescales by `max_brightness * p / 100` with
C integer division (truncation toward zero, not rounding).  Without a sign
the result is exactly that value and the range check always passes; with a
leading `+` the truncated rescaled magnitude is added to the current
brightness (subject to the upper range check, line 158); with a leading `-`
it is subtracted, and since the current brightness is at most the maximum
the subtraction always passes the (upper-bound-only) check. -/
theorem c8_percent_truncation (p cur_brightness max_brightness : Int)
    (h0 : 0 ≤ p) (h1 : p ≤ 100) (h2 : 0 ≤ max_brightness)
    (h3 : cur_brightness ≤ max_brightness) :
    resolve_target none true p cur_brightness max_brightness =
        .ok (Int.tdiv (max_brightness * p) 100) ∧
      resolve_target (some '+') true p cur_brightness max_brightness =
        (if cur_brightness + Int.tdiv (max_brightness * p) 100 > max_brightness
         then .error .outOfRange
         else .ok (cur_brightness + Int.tdiv (max_brightness * p) 100)) ∧
      resolve_target (some '-') true p cur_brightness max_brightness =
        .ok (cur_brightness - Int.tdiv (max_brightness * p) 100) := by
  have hd0 : 0 ≤ Int.tdiv (max_brightness * p) 100 :=
    Int.tdiv_nonneg (mul_nonneg h2 h0) (by norm_num)
  have hdM : Int.tdiv (max_brightness * p) 100 ≤ max_brightness := by
    rw [Int.tdiv_eq_ediv (mul_nonneg h2 h0) (by norm_num)]
    calc max_brightness * p / 100 ≤ max_brightness * 100 / 100 :=
          Int.ediv_le_ediv (by norm_num) (mul_le_mul_of_nonneg_left h1 h2)
      _ = max_brightness := Int.mul_ediv_cancel _ (by norm_num)
  unfold resolve_target
  refine ⟨?_, ?_, ?_⟩
  · simp only [reduceCtorEq, if_false, if_true, Option.some.injEq, if_neg (by decide : ¬(none : Option Char) = some '-'), if_neg (by decide : ¬(none : Option Char) = some '+')]
    rw [if_neg (not_lt.mpr hdM)]
  · have e0 : (true = true) = True := by simp
    have e1 : ((some '+' : Option Char) = some '-') = False := by simp
    have e2 : ((some '+' : Option Char) = some '+') = True := by simp
    simp only [e0, e1, e2, if_false, if_true]
  · have e0 : (true = true) = True := by simp
    have e3 : ((some '-' : Option Char) = some '-') = True := by simp
    simp only [e0, e3, if_false, if_true]
    rw [if_neg (not_lt.mpr ((sub_le_self cur_brightness hd0).trans h3))]

/-- Witness for C8 at p = 75, current 50, maximum 100: the percent target is
exactly 75, the `+75%` target is rejected as out of range, and the `-75%`
target is 50 - 75 = -25 (which the upper-bound-only check lets through). -/
theorem c8_percent_truncation_witness :
    resolve_target none true 75 50 100 = .ok (Int.tdiv (100 * 75) 100) ∧
      resolve_target (some '+') true 75 50 100 =
        (if 50 + Int.tdiv (100 * 75) 100 > 100 then .error .outOfRange
         else .ok (50 + Int.tdiv (100 * 75) 100)) ∧
      resolve_target (some '-') true 75 50 100 =
        .ok (50 - Int.tdiv (100 * 75) 100) :=
  c8_percent_truncation 75 50 100 (by decide) (by decide) (by decide) (by decide)

/-! ## Claim C9 (amended): helper lemmas -/

/-- Helper: `takeWhile` keeps a head that satisfies the predicate. -/
theorem takeWhile_cons_pos {p : Char → Bool} {c : Char} (h : p c = true)
    (l : List Char) : List.takeWhile p (c :: l) = c :: List.takeWhile p l := by
  rw [List.takeWhile_cons, if_pos h]

/-- Helper: `takeWhile` stops at a head that fails the predicate. -/
theorem takeWhile_cons_neg {p : Char → Bool} {c : Char} (h : p c = false)
    (l : List Char) : List.takeWhile p (c :: l) = [] := by
  rw [List.takeWhile_cons, if_neg (by simp [h])]

/-- Helper: `dropWhile` keeps a list whose head fails the predicate. -/
theorem dropWhile_cons_neg {p : Char → Bool} {c : Char} (h : p c = false)
    (l : List Char) : List.dropWhile p (c :: l) = c :: l := by
  rw [List.dropWhile_cons, if_neg (by simp [h])]

/-- Helper: `takeWhile` consumes everything iff every element satisfies the
predicate. -/
theorem takeWhile_length_eq_iff_all (p : Char → Bool) (l : List Char) :
    (List.takeWhile p l).length = l.length ↔ l.all p = true := by
  induction l with
  | nil => simp
  | cons c r ih =>
    cases hc : p c with
    | true =>
      rw [takeWhile_cons_pos hc]
      simp [hc, ih]
    | false =>
      rw [takeWhile_cons_neg hc]
      simp only [List.length_nil, List.length_cons, List.all_cons, hc,
        Bool.false_and, Bool.false_eq_true, iff_false]
      omega

/-- Helper: a final element failing the predicate does not change
`takeWhile`. -/
theorem takeWhile_concat_neg (p : Char → Bool) {c : Char} (h : p c = false)
    (l : List Char) : List.takeWhile p (l ++ [c]) = List.takeWhile p l := by
  induction l with
  | nil => simpa using takeWhile_cons_neg h []
  | cons a r ih =>
    cases ha : p a with
    | true => rw [List.cons_append, takeWhile_cons_pos ha, takeWhile_cons_pos ha, ih]
    | false => rw [List.cons_append, takeWhile_cons_neg ha, takeWhile_cons_neg ha]

/-- Helper: `dropLast` of a cons with nonempty tail. -/
theorem dropLast_cons_of_ne (c : Char) {v : List Char} (h : v ≠ []) :
    (c :: v).dropLast = c :: v.dropLast := by
  cases v with
  | nil => exact absurd rfl h
  | cons a r => rfl

/-- Helper: `getLast?` of a cons with nonempty tail. -/
theorem getLast?_cons_of_ne (c : Char) {v : List Char} (h : v ≠ []) :
    (c :: v).getLast? = v.getLast? := by
  cases v with
  | nil => exact absurd rfl h
  | cons a r => exact List.getLast?_cons_cons

/-- Helper: a list whose `getLast?` is `%` decomposes as its `dropLast`
followed by `%`. -/
theorem dropLast_concat_pct {v : List Char} (h : v.getLast? = some '%') :
    v.dropLast ++ ['%'] = v := by
  have hne : v ≠ [] := by
    intro hv
    rw [hv] at h
    exact Option.noConfusion h
  have hlast : v.getLast hne = '%' := by
    have := List.getLast?_eq_getLast v hne
    rw [this] at h
    exact (Option.some.injEq _ _).mp h.symm |>.symm
  rw [← hlast]
  exact List.dropLast_append_getLast hne

/-- Helper: whitespace characters are not sign characters. -/
theorem space_not_sign {c : Char} (h : isSpaceChar c = true) :
    (c = '-' || c = '+') = false := by
  simp only [isSpaceChar, Bool.or_eq_true, decide_eq_true_eq] at h
  rcases h with ((((rfl | rfl) | rfl) | rfl) | rfl) | rfl <;> decide

/-- Helper: whitespace characters are not digits. -/
theorem space_not_digit {c : Char} (h : isSpaceChar c = true) :
    isDigitChar c = false := by
  simp only [isSpaceChar, Bool.or_eq_true, decide_eq_true_eq] at h
  rcases h with ((((rfl | rfl) | rfl) | rfl) | rfl) | rfl <;> decide

/-- Helper: characters consumed by `strtol` after a sign: the number of
characters consumed on a string starting with a sign character. -/
theorem strtol10_sign_snd {c : Char} (hc : c = '-' ∨ c = '+') (v : List Char) :
    (strtol10 (c :: v)).2 =
      if (v.takeWhile isDigitChar).isEmpty = true then 0
      else (v.takeWhile isDigitChar).length + 1 := by
  rcases hc with rfl | rfl <;>
  · simp only [strtol10]
    rw [takeWhile_cons_neg (by decide), dropWhile_cons_neg (by decide)]
    cases hd : (v.takeWhile isDigitChar).isEmpty with
    | true => simp [hd]
    | false =>
      simp [hd]
      omega

/-- Helper: characters consumed by `strtol` on a string not starting with
whitespace or a sign. -/
theorem strtol10_nosign_snd {c : Char} (hs : isSpaceChar c = false)
    (h1 : ¬ c = '-') (h2 : ¬ c = '+') (v : List Char) :
    (strtol10 (c :: v)).2 =
      if ((c :: v).takeWhile isDigitChar).isEmpty = true then 0
      else ((c :: v).takeWhile isDigitChar).length := by
  simp only [strtol10]
  rw [takeWhile_cons_neg hs, dropWhile_cons_neg hs]
  cases hd : ((c :: v).takeWhile isDigitChar).isEmpty with
  | true => simp [hd, h1, h2]
  | false => simp [hd, h1, h2]

/-- Helper: the `strtol` consumption test after a sign character: it
consumed everything up to position `W.length + 1` iff `W` is a nonempty
all-digit run. -/
theorem consumed_sign_iff (W : List Char) :
    ((if (W.takeWhile isDigitChar).isEmpty = true then 0
      else (W.takeWhile isDigitChar).length + 1) = W.length + 1)
    ↔ (W ≠ [] ∧ W.all isDigitChar = true) := by
  by_cases hD : (W.takeWhile isDigitChar).isEmpty = true
  · rw [if_pos hD]
    constructor
    · intro h
      omega
    · rintro ⟨hne, hall⟩
      exfalso
      cases W with
      | nil => exact hne rfl
      | cons a w =>
        have ha : isDigitChar a = true := by
          simp only [List.all_cons, Bool.and_eq_true] at hall
          exact hall.1
        rw [takeWhile_cons_pos ha] at hD
        simp at hD
  · rw [if_neg hD]
    constructor
    · intro h
      have hlen : (W.takeWhile isDigitChar).length = W.length := by omega
      refine ⟨?_, (takeWhile_length_eq_iff_all _ _).mp hlen⟩
      rintro rfl
      simp at hD
    · rintro ⟨hne, hall⟩
      have heq : W.takeWhile isDigitChar = W :=
        List.takeWhile_eq_self_iff.mpr (List.all_eq_true.mp hall)
      rw [heq]

/-- Helper: the `strtol` consumption test without a sign: on `c :: W` it
consumed everything iff `c` and all of `W` are digits. -/
theorem consumed_nosign_iff (c : Char) (W : List Char) :
    ((if ((c :: W).takeWhile isDigitChar).isEmpty = true then 0
      else ((c :: W).takeWhile isDigitChar).length) = W.length + 1)
    ↔ (isDigitChar c = true ∧ W.all isDigitChar = true) := by
  cases hc : isDigitChar c with
  | true =>
    rw [takeWhile_cons_pos hc]
    simp only [List.isEmpty_cons, Bool.false_eq_true, if_false, List.length_cons,
      hc, true_and, Nat.add_right_cancel_iff]
    exact takeWhile_length_eq_iff_all _ _
  | false =>
    rw [takeWhile_cons_neg hc]
    simp only [List.isEmpty_nil, if_true, List.length_nil, hc, Bool.false_eq_true,
      false_and, iff_false]
    omega

/-- Core characterization of the checks at lines 144-146, applied to the
post-prefix string `u`: the digit-run/consumption/whitespace tests all pass
iff `u`, after stripping one optional `strtol`-style sign and one optional
trailing `%`, is a nonempty digit run. -/
theorem body_accept_iff (u : List Char) :
    ((if u.getLast? = some '%' then u.dropLast else u).length ≠ 0 ∧
      (strtol10 u).2 = (if u.getLast? = some '%' then u.dropLast else u).length ∧
      isSpaceChar (u.headD (Char.ofNat 0)) = false)
    ↔ (stripPct (stripSign1 u) ≠ [] ∧
        (stripPct (stripSign1 u)).all isDigitChar = true) := by
  cases u with
  | nil => simp [strtol10, stripSign1, stripPct]
  | cons c v =>
    cases hsp : isSpaceChar c with
    | true =>
      apply iff_of_false
      · rintro ⟨-, -, h3⟩
        rw [List.headD_cons, hsp] at h3
        exact Bool.noConfusion h3
      · rw [show stripSign1 (c :: v) = c :: v from by
          simp only [stripSign1]
          rw [if_neg (by simp [space_not_sign hsp])]]
        by_cases hpc : (c :: v).getLast? = some '%'
        · unfold stripPct
          rw [if_pos hpc]
          cases v with
          | nil =>
            rintro ⟨h1, -⟩
            exact h1 rfl
          | cons a w =>
            rw [dropLast_cons_of_ne c (by simp)]
            rintro ⟨-, h2⟩
            rw [List.all_cons, space_not_digit hsp, Bool.false_and] at h2
            exact Bool.noConfusion h2
        · unfold stripPct
          rw [if_neg hpc]
          rintro ⟨-, h2⟩
          rw [List.all_cons, space_not_digit hsp, Bool.false_and] at h2
          exact Bool.noConfusion h2
    | false =>
      cases hsg : (c = '-' || c = '+' : Bool) with
      | true =>
        have e1 : stripSign1 (c :: v) = v := by
          simp only [stripSign1]
          rw [if_pos hsg]
        rw [e1]
        have hc : c = '-' ∨ c = '+' := by
          simpa [Bool.or_eq_true, decide_eq_true_eq] using hsg
        rw [strtol10_sign_snd hc v]
        cases v with
        | nil =>
          apply iff_of_false
          · rintro ⟨-, h2, -⟩
            rw [if_neg (show ¬ ([c] : List Char).getLast? = some '%' from by
                rcases hc with rfl | rfl <;> decide)] at h2
            simp at h2
          · rintro ⟨h1, -⟩
            exact h1 (by simp [stripPct])
        | cons a w =>
          have hvne : (a :: w : List Char) ≠ [] := by simp
          rw [getLast?_cons_of_ne c hvne]
          by_cases hpc : (a :: w).getLast? = some '%'
          · rw [if_pos hpc, dropLast_cons_of_ne c hvne]
            unfold stripPct
            rw [if_pos hpc]
            have hW : (a :: w).dropLast ++ ['%'] = a :: w := dropLast_concat_pct hpc
            rw [show (a :: w).takeWhile isDigitChar
                  = ((a :: w).dropLast).takeWhile isDigitChar from by
              conv_lhs => rw [← hW]
              exact takeWhile_concat_neg _ (by decide) _]
            constructor
            · rintro ⟨-, h2, -⟩
              exact (consumed_sign_iff _).mp h2
            · intro h
              exact ⟨Nat.succ_ne_zero _, (consumed_sign_iff _).mpr h, hsp⟩
          · rw [if_neg hpc]
            unfold stripPct
            rw [if_neg hpc]
            constructor
            · rintro ⟨-, h2, -⟩
              exact (consumed_sign_iff _).mp h2
            · intro h
              exact ⟨Nat.succ_ne_zero _, (consumed_sign_iff _).mpr h, hsp⟩
      | false =>
        have e1 : stripSign1 (c :: v) = c :: v := by
          simp only [stripSign1]
          rw [if_neg (by simp [hsg])]
        rw [e1]
        have h1 : ¬ c = '-' := by
          intro h
          subst h
          simp at hsg
        have h2 : ¬ c = '+' := by
          intro h
          subst h
          simp at hsg
        rw [strtol10_nosign_snd hsp h1 h2 v]
        cases v with
        | nil =>
          by_cases hpc : c = '%'
          · subst hpc
            apply iff_of_false
            · rintro ⟨hl, -⟩
              exact hl (by decide)
            · rintro ⟨hne, -⟩
              exact hne (by decide)
          · have hgl : ¬ ([c] : List Char).getLast? = some '%' := by
              simp [hpc]
            rw [if_neg hgl]
            unfold stripPct
            rw [if_neg hgl]
            constructor
            · rintro ⟨-, hcons, -⟩
              have h := (consumed_nosign_iff c []).mp hcons
              refine ⟨by simp, ?_⟩
              rw [List.all_cons, h.1]
              rfl
            · rintro ⟨-, hall⟩
              rw [List.all_cons, Bool.and_eq_true] at hall
              exact ⟨Nat.succ_ne_zero _, (consumed_nosign_iff c []).mpr hall, hsp⟩
        | cons a w =>
          have hvne : (a :: w : List Char) ≠ [] := by simp
          rw [getLast?_cons_of_ne c hvne]
          by_cases hpc : (a :: w).getLast? = some '%'
          · rw [if_pos hpc, dropLast_cons_of_ne c hvne]
            unfold stripPct
            rw [getLast?_cons_of_ne c hvne, if_pos hpc, dropLast_cons_of_ne c hvne]
            have hW : (a :: w).dropLast ++ ['%'] = a :: w := dropLast_concat_pct hpc
            rw [show (c :: a :: w).takeWhile isDigitChar
                  = (c :: (a :: w).dropLast).takeWhile isDigitChar from by
              conv_lhs => rw [← hW]
              exact takeWhile_concat_neg _ (by decide) (c :: (a :: w).dropLast)]
            constructor
            · rintro ⟨-, hcons, -⟩
              have h := (consumed_nosign_iff c _).mp hcons
              refine ⟨by simp, ?_⟩
              rw [List.all_cons, Bool.and_eq_true]
              exact h
            · rintro ⟨-, hall⟩
              rw [List.all_cons, Bool.and_eq_true] at hall
              exact ⟨Nat.succ_ne_zero _, (consumed_nosign_iff c _).mpr hall, hsp⟩
          · rw [if_neg hpc]
            unfold stripPct
            rw [getLast?_cons_of_ne c hvne, if_neg hpc]
            constructor
            · rintro ⟨-, hcons, -⟩
              have h := (consumed_nosign_iff c (a :: w)).mp hcons
              refine ⟨by simp, ?_⟩
              rw [List.all_cons, Bool.and_eq_true]
              exact h
            · rintro ⟨-, hall⟩
              rw [List.all_cons, Bool.and_eq_true] at hall
              exact ⟨Nat.succ_ne_zero _, (consumed_nosign_iff c (a :: w)).mpr hall, hsp⟩

/-- Helper: a list is not empty iff `isEmpty` is `false`. -/
theorem isEmpty_eq_false_iff_ne_nil {l : List Char} :
    l.isEmpty = false ↔ l ≠ [] := by
  cases l <;> simp

/-- Helper: the accept/reject branch of lines 144-148 as a statement about
its condition. -/
theorem ite_parse_error_iff {α : Type} (b : Bool) (v : α) :
    ((if b = true then (Except.error CalcError.parseError : Except CalcError α)
      else Except.ok v) = Except.error CalcError.parseError) ↔ b = true := by
  cases b <;> simp

/-- C9, amended: the parser fails with the parse error exactly when the
input is not of the form: optional leading `+` or `-`, then an optional
second sign (an artefact of `strtol`, which accepts its own sign after the
explicit prefix strip of lines 134-138), then a non-empty run of decimal
digits, then an optional trailing `%`.  In particular empty digit runs,
non-digit characters, leading whitespace and misplaced `%` are rejected,
but a second sign directly before the digits — as in "+-5" — is accepted. -/
theorem c9_parse_failure_characterized (s : List Char) :
    parse_brightness s = .error .parseError ↔ grammarCode s = false := by
  cases s with
  | nil => exact iff_of_true rfl rfl
  | cons c r =>
    simp only [parse_brightness, grammarCode, List.headD_cons]
    by_cases hp : c = '-' ∨ c = '+'
    · have hsg : (c = '-' || c = '+' : Bool) = true := by
        rcases hp with rfl | rfl <;> simp
      have e1 : stripSign1 (c :: r) = r := by
        simp only [stripSign1]
        rw [if_pos hsg]
      rw [e1]
      simp only [hsg, reduceIte, List.tail_cons]
      rw [ite_parse_error_iff]
      simp only [Bool.or_eq_true, decide_eq_true_eq]
      have hb := body_accept_iff r
      constructor
      · intro hrej
        cases hgc : (!(stripPct (stripSign1 r)).isEmpty &&
            (stripPct (stripSign1 r)).all isDigitChar) with
        | false => rfl
        | true =>
          exfalso
          rw [Bool.and_eq_true, Bool.not_eq_true'] at hgc
          have hacc := hb.mpr ⟨isEmpty_eq_false_iff_ne_nil.mp hgc.1, hgc.2⟩
          rcases hrej with (h | h) | h
          · exact hacc.1 h
          · exact h hacc.2.1
          · rw [hacc.2.2] at h
            exact Bool.noConfusion h
      · intro hgc
        by_contra hrej
        push_neg at hrej
        obtain ⟨⟨h0, h1⟩, h2⟩ := hrej
        have h2' : isSpaceChar (r.headD (Char.ofNat 0)) = false := by
          revert h2
          cases isSpaceChar (r.headD (Char.ofNat 0)) <;> simp
        have hacc := hb.mp ⟨h0, h1, h2'⟩
        have hgt : (!(stripPct (stripSign1 r)).isEmpty &&
            (stripPct (stripSign1 r)).all isDigitChar) = true := by
          rw [Bool.and_eq_true, Bool.not_eq_true']
          exact ⟨isEmpty_eq_false_iff_ne_nil.mpr hacc.1, hacc.2⟩
        rw [hgc] at hgt
        exact Bool.noConfusion hgt
    · have hsg : (c = '-' || c = '+' : Bool) = false := by
        rcases not_or.mp hp with ⟨ha, hb⟩
        simp [ha, hb]
      have e1 : stripSign1 (c :: r) = c :: r := by
        simp only [stripSign1]
        rw [if_neg (by simp [hsg])]
      rw [e1]
      simp only [hsg, Bool.false_eq_true, if_false, List.headD_cons]
      rw [ite_parse_error_iff]
      simp only [Bool.or_eq_true, decide_eq_true_eq]
      have hb := body_accept_iff (c :: r)
      simp only [List.headD_cons] at hb
      constructor
      · intro hrej
        cases hgc : (!(stripPct (stripSign1 (c :: r))).isEmpty &&
            (stripPct (stripSign1 (c :: r))).all isDigitChar) with
        | false => rfl
        | true =>
          exfalso
          rw [Bool.and_eq_true, Bool.not_eq_true'] at hgc
          have hacc := hb.mpr ⟨isEmpty_eq_false_iff_ne_nil.mp hgc.1, hgc.2⟩
          rcases hrej with (h | h) | h
          · exact hacc.1 h
          · exact h hacc.2.1
          · rw [hacc.2.2] at h
            exact Bool.noConfusion h
      · intro hgc
        by_contra hrej
        push_neg at hrej
        obtain ⟨⟨h0, h1⟩, h2⟩ := hrej
        have h2' : isSpaceChar c = false := by
          revert h2
          cases isSpaceChar c <;> simp
        have hacc := hb.mp ⟨h0, h1, h2'⟩
        have hgt : (!(stripPct (stripSign1 (c :: r))).isEmpty &&
            (stripPct (stripSign1 (c :: r))).all isDigitChar) = true := by
          rw [Bool.and_eq_true, Bool.not_eq_true']
          exact ⟨isEmpty_eq_false_iff_ne_nil.mpr hacc.1, hacc.2⟩
        rw [hgc] at hgt
        exact Bool.noConfusion hgt

end BacklightDbus
